import Mathlib

/-!
Verification development for the EdgeCharge usage-anchoring core.

This file gives a shallow embedding, in Lean 4, of the parts of the
EdgeCharge repository that the specification's testable properties talk
about:

* the keccak-256 hash (used by `viem.keccak256` off-ledger and by the
  EVM on-ledger) as an executable function on byte lists;
* the Merkle batch builder of `packages/relayer/src/lib/merkle.ts` and
  the duplicate in `packages/provider/src/utils/verification.ts`
  (`buildMerkleRoot`, `hashPairCommutative`, `generateMerkleProofForLeaf`,
  `verifyMerkleProof`);
* the `EdgeCharge.sol` ledger state machine (`submitUsageAnchor`,
  `markInvoicePaid`, `withdrawProvider`, `verifyMerkleProof`);
* the relayer batcher (`services/batcher.ts`, `services/state.ts`) and
  the canonical record codec (`utils/canonicalJson.ts`).

Machine integers are modelled as `Nat` (EVM `uint256` arithmetic never
overflows in the paths treated here; where the source masks to 64 bits
the model masks explicitly).  32-byte hashes (`bytes32`, `0x…` hex
strings) are modelled by their numeric value: the canonical lowercase
64-hex-digit string of a hash corresponds one-to-one to a `Nat` below
2^256, and the bridge between JavaScript's lexicographic string
comparison and the numeric order is proved (`jsHexStrLt_eq_decide_lt`),
not assumed.
-/

/-! ### Keccak-256

Executable keccak-256 over byte lists, as computed by `viem.keccak256`
off-ledger and by the `keccak256` opcode on-ledger.  Lanes are `Nat`s
kept below 2^64 by explicit masking. -/

/-- 64-bit mask. -/
def mask64 : Nat := 2 ^ 64 - 1

/-- Rotate a 64-bit lane left by `n` (0 ≤ n < 64). -/
def rotl64 (x n : Nat) : Nat :=
  ((x <<< n) ||| (x >>> (64 - n))) &&& mask64

/-- The keccak-f[1600] round constant of round `i` (0 ≤ i < 24). -/
def keccakRCOf : Nat → Nat
  | 0 => 0x0000000000000001
  | 1 => 0x0000000000008082
  | 2 => 0x800000000000808a
  | 3 => 0x8000000080008000
  | 4 => 0x000000000000808b
  | 5 => 0x0000000080000001
  | 6 => 0x8000000080008081
  | 7 => 0x8000000000008009
  | 8 => 0x000000000000008a
  | 9 => 0x0000000000000088
  | 10 => 0x0000000080008009
  | 11 => 0x000000008000000a
  | 12 => 0x000000008000808b
  | 13 => 0x800000000000008b
  | 14 => 0x8000000000008089
  | 15 => 0x8000000000008003
  | 16 => 0x8000000000008002
  | 17 => 0x8000000000000080
  | 18 => 0x000000000000800a
  | 19 => 0x800000008000000a
  | 20 => 0x8000000080008081
  | 21 => 0x8000000000008080
  | 22 => 0x0000000080000001
  | 23 => 0x8000000080008008
  | _ => 0

/-- The 24 keccak-f[1600] round constants. -/
def keccakRC : List Nat :=
  (List.range 24).map keccakRCOf

/-- The ρ rotation offset `r[x,y]` of the lane at index `x + 5*y`. -/
def keccakRotOf : Nat → Nat
  | 1 => 1
  | 2 => 62
  | 3 => 28
  | 4 => 27
  | 5 => 36
  | 6 => 44
  | 7 => 6
  | 8 => 55
  | 9 => 20
  | 10 => 3
  | 11 => 10
  | 12 => 43
  | 13 => 25
  | 14 => 39
  | 15 => 41
  | 16 => 45
  | 17 => 15
  | 18 => 21
  | 19 => 8
  | 20 => 18
  | 21 => 2
  | 22 => 61
  | 23 => 56
  | 24 => 14
  | _ => 0

/-- θ step: column parities xored across the state. -/
def keccakTheta (A : List Nat) : List Nat :=
  let C := (List.range 5).map fun x =>
    A.getD x 0 ^^^ A.getD (x + 5) 0 ^^^ A.getD (x + 10) 0 ^^^
      A.getD (x + 15) 0 ^^^ A.getD (x + 20) 0
  let D := (List.range 5).map fun x =>
    C.getD ((x + 4) % 5) 0 ^^^ rotl64 (C.getD ((x + 1) % 5) 0) 1
  (List.range 25).map fun i => A.getD i 0 ^^^ D.getD (i % 5) 0

/-- ρ and π steps: lane rotation and permutation.
For target coordinates (x', y') the source lane is
x = (x' + 3·y') mod 5, y = x'. -/
def keccakRhoPi (A : List Nat) : List Nat :=
  (List.range 25).map fun j =>
    let xp := j % 5
    let yp := j / 5
    let x := (xp + 3 * yp) % 5
    let y := xp
    rotl64 (A.getD (x + 5 * y) 0) (keccakRotOf (x + 5 * y))

/-- χ step: nonlinear row mixing (complement realised as xor with the
64-bit mask, valid because every lane is kept below 2^64). -/
def keccakChi (B : List Nat) : List Nat :=
  (List.range 25).map fun j =>
    let x := j % 5
    let y := j / 5
    B.getD j 0 ^^^
      ((B.getD ((x + 1) % 5 + 5 * y) 0 ^^^ mask64) &&&
        B.getD ((x + 2) % 5 + 5 * y) 0)

/-- ι step: xor the round constant into lane 0. -/
def keccakIota (rc : Nat) (A : List Nat) : List Nat :=
  match A with
  | [] => []
  | a :: rest => (a ^^^ rc) :: rest

/-- One keccak-f round. -/
def keccakRound (A : List Nat) (rc : Nat) : List Nat :=
  keccakIota rc (keccakChi (keccakRhoPi (keccakTheta A)))

/-- The keccak-f[1600] permutation: 24 rounds. -/
def keccakF (A : List Nat) : List Nat :=
  keccakRC.foldl keccakRound A

/-- Multi-rate padding for keccak-256 (legacy 0x01 domain byte, as used
by Ethereum): rate 136 bytes. -/
def keccakPad (msg : List Nat) : List Nat :=
  let r := 136
  let padLen := r - msg.length % r
  if padLen == 1 then msg ++ [0x81]
  else msg ++ [0x01] ++ List.replicate (padLen - 2) 0 ++ [0x80]

/-- Interpret 8 bytes (little-endian) as one 64-bit lane. -/
def bytesToLane (bs : List Nat) : Nat :=
  bs.foldr (fun b acc => acc * 256 + b % 256) 0

/-- Split a padded message into 136-byte blocks of 17 lanes each.
Structural recursion on a fuel bounded by the message length, so that
the function evaluates inside the kernel. -/
def keccakBlocksAux : Nat → List Nat → List (List Nat)
  | 0, _ => []
  | fuel + 1, msg =>
    if msg.length ≤ 136 then [(List.range 17).map fun j => bytesToLane ((msg.drop (8 * j)).take 8)]
    else
      ((List.range 17).map fun j => bytesToLane ((msg.drop (8 * j)).take 8)) ::
        keccakBlocksAux fuel (msg.drop 136)

/-- Split a padded message into 136-byte blocks of 17 lanes each. -/
def keccakBlocks (msg : List Nat) : List (List Nat) :=
  keccakBlocksAux msg.length msg

/-- Absorb one 17-lane block into the state and permute. -/
def keccakAbsorbBlock (A : List Nat) (blk : List Nat) : List Nat :=
  keccakF ((List.range 25).map fun i => A.getD i 0 ^^^ blk.getD i 0)

/-- Extract one byte from a lane. -/
def laneByte (lane k : Nat) : Nat := lane >>> (8 * k) &&& 255

/-- keccak-256 of a byte list, returned as the 32-byte digest read
big-endian as a `Nat` (the numeric value of the `bytes32` /
`0x…` hex string). -/
def keccak256Nat (msg : List Nat) : Nat :=
  let A0 := List.replicate 25 0
  let A := (keccakBlocks (keccakPad msg)).foldl keccakAbsorbBlock A0
  let outBytes := (List.range 4).flatMap fun j =>
    (List.range 8).map fun k => laneByte (A.getD j 0) k
  outBytes.foldl (fun acc b => acc * 256 + b) 0

/-! ### Hex strings and JavaScript string comparison

`viem` hashes are canonical lowercase `0x`-prefixed 64-hex-digit
strings.  The TypeScript sources compare them with JavaScript's `<`,
which is lexicographic on UTF-16 code units.  We model a hash by its
numeric value and reconstruct the string comparison exactly: the code
units of the canonical string of a value, compared lexicographically. -/

/-- UTF-16 code unit of a lowercase hex digit (`0`–`9` ↦ 48–57,
`a`–`f` ↦ 97–102). -/
def hexDigitCode (d : Nat) : Nat :=
  if d < 10 then 48 + d else 87 + d

/-- The `w` hex digits of `n`, most significant first (the digit string
of `n` padded to width `w`; the leading digit absorbs any overflow). -/
def nibblesBE : Nat → Nat → List Nat
  | 0, _ => []
  | w + 1, n => n / 16 ^ w :: nibblesBE w (n % 16 ^ w)

/-- Code units of the canonical `0x…` string of a 32-byte hash value. -/
def hexCodes (n : Nat) : List Nat :=
  48 :: 120 :: (nibblesBE 64 n).map hexDigitCode

/-- JavaScript `<` on strings: strict lexicographic order on code
units. -/
def lexLtCodes : List Nat → List Nat → Bool
  | [], [] => false
  | [], _ :: _ => true
  | _ :: _, [] => false
  | a :: as, b :: bs => if a < b then true else if b < a then false else lexLtCodes as bs

/-- The comparison `a.toLowerCase() < b.toLowerCase()` performed by the
TypeScript `hashPairCommutative` on canonical hash strings. -/
def jsHexStrLt (a b : Nat) : Bool :=
  lexLtCodes (hexCodes a) (hexCodes b)

/-- JavaScript `===` on the canonical hash strings (used by
`verifyMerkleProof`'s final `computedHash === root`). -/
def jsHexStrEq (a b : Nat) : Bool :=
  hexCodes a == hexCodes b

/-- Non-strict counterpart of `jsHexStrLt`; the comparator under which
`Array.prototype.sort()` orders a layer of hash strings. -/
def jsHexStrLe (a b : Nat) : Bool :=
  !jsHexStrLt b a

/-! ### Bridging string order and numeric order -/

theorem hexDigitCode_lt_iff {d e : Nat} : hexDigitCode d < hexDigitCode e ↔ d < e := by
  unfold hexDigitCode
  split <;> split <;> omega

theorem lexLtCodes_cons_same {c : Nat} {as bs : List Nat} :
    lexLtCodes (c :: as) (c :: bs) = lexLtCodes as bs := by
  simp [lexLtCodes]

theorem lexLtCodes_nibbles (w : Nat) :
    ∀ a b : Nat, a < 16 ^ w → b < 16 ^ w →
      (lexLtCodes ((nibblesBE w a).map hexDigitCode) ((nibblesBE w b).map hexDigitCode) = true ↔ a < b) := by
  induction w with
  | zero =>
    intro a b ha hb
    simp [nibblesBE, lexLtCodes]
    omega
  | succ w ih =>
    intro a b ha hb
    have hP : 0 < 16 ^ w := by positivity
    simp only [nibblesBE, List.map_cons, lexLtCodes]
    rcases Nat.lt_trichotomy (a / 16 ^ w) (b / 16 ^ w) with hq | hq | hq
    · have h1 : hexDigitCode (a / 16 ^ w) < hexDigitCode (b / 16 ^ w) := hexDigitCode_lt_iff.mpr hq
      rw [if_pos h1]
      constructor
      · intro _
        by_contra hab
        push_neg at hab
        have hdiv : b / 16 ^ w ≤ a / 16 ^ w := Nat.div_le_div_right hab
        omega
      · intro _
        rfl
    · have h1 : ¬ hexDigitCode (a / 16 ^ w) < hexDigitCode (b / 16 ^ w) := by
        rw [hexDigitCode_lt_iff]; omega
      have h2 : ¬ hexDigitCode (b / 16 ^ w) < hexDigitCode (a / 16 ^ w) := by
        rw [hexDigitCode_lt_iff]; omega
      rw [if_neg h1, if_neg h2]
      rw [ih (a % 16 ^ w) (b % 16 ^ w) (Nat.mod_lt _ hP) (Nat.mod_lt _ hP)]
      constructor
      · intro hm
        calc a = 16 ^ w * (a / 16 ^ w) + a % 16 ^ w := (Nat.div_add_mod a _).symm
          _ < 16 ^ w * (a / 16 ^ w) + b % 16 ^ w := Nat.add_lt_add_left hm _
          _ = 16 ^ w * (b / 16 ^ w) + b % 16 ^ w := by rw [hq]
          _ = b := Nat.div_add_mod b _
      · intro hab
        by_contra hm
        push_neg at hm
        have hba : b ≤ a := by
          calc b = 16 ^ w * (b / 16 ^ w) + b % 16 ^ w := (Nat.div_add_mod b _).symm
            _ ≤ 16 ^ w * (b / 16 ^ w) + a % 16 ^ w := Nat.add_le_add_left hm _
            _ = 16 ^ w * (a / 16 ^ w) + a % 16 ^ w := by rw [hq]
            _ = a := Nat.div_add_mod a _
        omega
    · have h1 : ¬ hexDigitCode (a / 16 ^ w) < hexDigitCode (b / 16 ^ w) := by
        rw [hexDigitCode_lt_iff]; omega
      have h2 : hexDigitCode (b / 16 ^ w) < hexDigitCode (a / 16 ^ w) := hexDigitCode_lt_iff.mpr hq
      rw [if_neg h1, if_pos h2]
      constructor
      · intro hc
        exact absurd hc (by simp)
      · intro hab
        exfalso
        have hdiv : a / 16 ^ w ≤ b / 16 ^ w := Nat.div_le_div_right (Nat.le_of_lt hab)
        omega

/-- For 32-byte hash values, JavaScript's lexicographic comparison of
the canonical hex strings coincides with numeric comparison. -/
theorem jsHexStrLt_eq_decide_lt {a b : Nat} (ha : a < 2 ^ 256) (hb : b < 2 ^ 256) :
    jsHexStrLt a b = decide (a < b) := by
  have h : (2 : Nat) ^ 256 = 16 ^ 64 := by norm_num
  have key := lexLtCodes_nibbles 64 a b (h ▸ ha) (h ▸ hb)
  unfold jsHexStrLt hexCodes
  rw [lexLtCodes_cons_same, lexLtCodes_cons_same]
  by_cases hab : a < b
  · rw [key.mpr hab, decide_eq_true hab]
  · rw [decide_eq_false hab]
    exact Bool.eq_false_iff.mpr fun hc => hab (key.mp hc)

theorem nibblesBE_inj (w : Nat) :
    ∀ a b : Nat, a < 16 ^ w → b < 16 ^ w → nibblesBE w a = nibblesBE w b → a = b := by
  induction w with
  | zero => intro a b ha hb _; omega
  | succ w ih =>
    intro a b ha hb h
    have hP : 0 < 16 ^ w := by positivity
    simp only [nibblesBE, List.cons.injEq] at h
    have hm := ih (a % 16 ^ w) (b % 16 ^ w) (Nat.mod_lt _ hP) (Nat.mod_lt _ hP) h.2
    calc a = 16 ^ w * (a / 16 ^ w) + a % 16 ^ w := (Nat.div_add_mod a _).symm
      _ = 16 ^ w * (b / 16 ^ w) + b % 16 ^ w := by rw [h.1, hm]
      _ = b := Nat.div_add_mod b _

/-- For 32-byte hash values, JavaScript `===` on canonical hex strings
coincides with numeric equality. -/
theorem jsHexStrEq_eq_decide_eq {a b : Nat} (ha : a < 2 ^ 256) (hb : b < 2 ^ 256) :
    jsHexStrEq a b = decide (a = b) := by
  have h : (2 : Nat) ^ 256 = 16 ^ 64 := by norm_num
  unfold jsHexStrEq hexCodes
  by_cases hab : a = b
  · simp [hab]
  · rw [decide_eq_false hab]
    apply beq_eq_false_iff_ne.mpr
    intro hc
    apply hab
    simp only [List.cons.injEq, true_and] at hc
    have hinj : Function.Injective hexDigitCode := by
      intro x y hxy
      rcases Nat.lt_trichotomy x y with hl | he | hl
      · exact absurd hxy (Nat.ne_of_lt (hexDigitCode_lt_iff.mpr hl))
      · exact he
      · exact absurd hxy.symm (Nat.ne_of_lt (hexDigitCode_lt_iff.mpr hl))
    exact nibblesBE_inj 64 a b (h ▸ ha) (h ▸ hb) (List.map_injective_iff.mpr hinj hc)

/-! ### Merkle batch builder

Embedding of `packages/relayer/src/lib/merkle.ts` and of the identical
helpers in `packages/provider/src/utils/verification.ts`
(`hashPairCommutative`, `buildMerkleRoot`, `generateMerkleProofForLeaf`,
`verifyMerkleProof`).  A `0x…` bytes32 hash string is represented by its
numeric value; string comparisons go through `jsHexStrLt`/`jsHexStrEq`,
which were proved above to agree with the numeric order on canonical
strings. -/

/-- The `w` bytes of `n`, most significant first (big-endian), as
`viem.toBytes` produces for a `0x…` string of `2w` hex digits. -/
def bytesBE : Nat → Nat → List Nat
  | 0, _ => []
  | w + 1, n => n / 256 ^ w % 256 :: bytesBE w (n % 256 ^ w)

/-- `hashPairCommutative` (merkle.ts lines 10–14, verification.ts lines
224–228): keccak-256 of the 64-byte concatenation, smaller string
first, where "smaller" is JavaScript string comparison of the lowercase
hex strings. -/
def hashPairCommutative (a b : Nat) : Nat :=
  if jsHexStrLt a b then keccak256Nat (bytesBE 32 a ++ bytesBE 32 b)
  else keccak256Nat (bytesBE 32 b ++ bytesBE 32 a)

/-- One pass of the layer loop in `buildMerkleRoot` /
`generateMerkleProofForLeaf`: adjacent elements are paired, an odd
trailing element is paired with itself (`layer[i + 1] ?? layer[i]`). -/
def pairLayer : List Nat → List Nat
  | [] => []
  | [a] => [hashPairCommutative a a]
  | a :: b :: rest => hashPairCommutative a b :: pairLayer rest

/-- `layer.sort()`: JavaScript's default sort orders the canonical hash
strings lexicographically, which by `jsHexStrLt_eq_decide_lt` is the
numeric order of the values; the sorted array is therefore the
`(· ≤ ·)`-sorted permutation of the layer. -/
def sortHex (l : List Nat) : List Nat :=
  l.insertionSort (· ≤ ·)

theorem pairLayer_length : ∀ l : List Nat, (pairLayer l).length = (l.length + 1) / 2
  | [] => by simp [pairLayer]
  | [a] => by simp [pairLayer]
  | _ :: _ :: rest => by
    simp only [pairLayer, List.length_cons, pairLayer_length rest]
    omega

/-- The `while (layer.length > 1)` loop of `buildMerkleRoot`
(merkle.ts lines 27–36): pair adjacent elements, then sort the produced
layer, until one hash remains.  Structural recursion on a fuel bounded
by the layer length (each pass at least halves a layer of length ≥ 2),
so that evaluation happens inside the kernel. -/
def rootLoopAux : Nat → List Nat → Nat
  | 0, _ => 0
  | _, [] => 0
  | _, [a] => a
  | fuel + 1, a :: b :: rest => rootLoopAux fuel (sortHex (pairLayer (a :: b :: rest)))

def rootLoop (l : List Nat) : Nat :=
  rootLoopAux l.length l

/-- `buildMerkleRoot` (merkle.ts lines 23–38, duplicated at
verification.ts lines 204–222): empty input yields the all-zero
sentinel (`'0x' + '00'.repeat(32)`, numeric value 0); otherwise the
input layer is sorted and the pair-and-sort loop is run. -/
def buildMerkleRoot (leaves : List Nat) : Nat :=
  match leaves with
  | [] => 0
  | _ :: _ => rootLoop (sortHex leaves)

/-- The proof element contributed by one pass of the layer loop of
`generateMerkleProofForLeaf`: walking the pairs `(layer[i], layer[i+1])`
for even `i`, if `i == currentIndex` the right element is recorded, if
`i + 1 == currentIndex` the left one.  `ci` is the current index
relative to the segment still being walked. -/
def proofContrib : List Nat → Nat → List Nat
  | [], _ => []
  | [a], ci => if ci == 0 then [a] else if ci == 1 then [a] else []
  | a :: b :: rest, ci =>
    if ci == 0 then [b]
    else if ci == 1 then [a]
    else proofContrib rest (ci - 2)

/-- The `while (layer.length > 1)` loop of `generateMerkleProofForLeaf`
(verification.ts lines 246–266): record this layer's sibling, move to
the paired layer — note: unlike `buildMerkleRoot`, the produced layer is
NOT sorted — and halve the index.  Fueled like `rootLoopAux`. -/
def proofLoopAux : Nat → List Nat → Nat → List Nat
  | 0, _, _ => []
  | _, [], _ => []
  | _, [_], _ => []
  | fuel + 1, a :: b :: rest, ci =>
    proofContrib (a :: b :: rest) ci ++ proofLoopAux fuel (pairLayer (a :: b :: rest)) (ci / 2)

def proofLoop (l : List Nat) (ci : Nat) : List Nat :=
  proofLoopAux l.length l ci

/-- `generateMerkleProofForLeaf` (verification.ts lines 237–269). -/
def generateMerkleProofForLeaf (leaves : List Nat) (leafIndex : Nat) : List Nat :=
  if leaves.length == 0 || decide (leaves.length ≤ leafIndex) then []
  else proofLoop leaves leafIndex

/-- `verifyMerkleProof` (verification.ts lines 135–151): fold the proof
elements onto the leaf with `hashPairCommutative` and compare the
resulting hash string with the expected root string (`===`). -/
def verifyMerkleProof (leafHash : Nat) (proof : List Nat) (root : Nat) : Bool :=
  jsHexStrEq (proof.foldl hashPairCommutative leafHash) root

/-! ### Merkle root: order independence and base cases (claims C2, C8, C1) -/

theorem sortHex_eq_of_perm {l l' : List Nat} (h : l.Perm l') : sortHex l = sortHex l' := by
  apply List.eq_of_perm_of_sorted (r := (· ≤ · : Nat → Nat → Prop))
  · exact (List.perm_insertionSort _ l).trans (h.trans (List.perm_insertionSort _ l').symm)
  · exact List.sorted_insertionSort _ l
  · exact List.sorted_insertionSort _ l'

/-- Claim C2: for every list of leaf hashes and every permutation of it,
`buildMerkleRoot` computes the same root — the root is a function of the
multiset of leaves, not of arrival order. -/
theorem buildMerkleRoot_perm_invariant (L L' : List Nat) (h : L.Perm L') :
    buildMerkleRoot L = buildMerkleRoot L' := by
  cases L with
  | nil =>
    rw [← h.nil_eq]
  | cons a as =>
    cases L' with
    | nil => exact absurd h.length_eq (by simp)
    | cons b bs =>
      show rootLoop (sortHex (a :: as)) = rootLoop (sortHex (b :: bs))
      rw [sortHex_eq_of_perm h]

/-- Witness for C2 at a concrete input: swapping two leaves leaves the
root unchanged. -/
theorem buildMerkleRoot_perm_invariant_witness :
    buildMerkleRoot [1, 2] = buildMerkleRoot [2, 1] :=
  buildMerkleRoot_perm_invariant [1, 2] [2, 1] (List.Perm.swap 2 1 [])

/-- Claim C8: `buildMerkleRoot []` is the fixed all-zero sentinel root
(numeric value 0 of `'0x' + '00'.repeat(32)`), and the root of a
single-leaf list is that leaf itself. -/
theorem buildMerkleRoot_empty_and_singleton :
    buildMerkleRoot [] = 0 ∧ ∀ h : Nat, buildMerkleRoot [h] = h :=
  ⟨rfl, fun _ => rfl⟩

/-- Claim C1 (the code violates it): `generateMerkleProofForLeaf` pairs
the layers WITHOUT the sorting that `buildMerkleRoot` applies before
pairing and after each produced layer, so the generated proof replays a
different layering than the root computation.  At the concrete
three-leaf input below (whose largest hash is not last, so sorting
regroups the pairs) the proof for index 0 does not verify against the
root built from the same leaves. -/
theorem merkle_proof_roundtrip_fails_on_unsorted_leaves :
    verifyMerkleProof
      0x1111111111111111111111111111111111111111111111111111111111111111
      (generateMerkleProofForLeaf
        [0x1111111111111111111111111111111111111111111111111111111111111111,
         0x3333333333333333333333333333333333333333333333333333333333333333,
         0x2222222222222222222222222222222222222222222222222222222222222222] 0)
      (buildMerkleRoot
        [0x1111111111111111111111111111111111111111111111111111111111111111,
         0x3333333333333333333333333333333333333333333333333333333333333333,
         0x2222222222222222222222222222222222222222222222222222222222222222]) = false := by
  set_option maxRecDepth 100000 in decide

/-! ### EdgeCharge.sol ledger state machine

Embedding of the contract state and of the entry points the claims are
about.  Addresses, `uint256` values and `bytes32` values are `Nat`s.
A call returns `Except String …`; an `error` result models an EVM
revert, after which the caller observes the pre-call state unchanged
(so "the call fails and changes nothing" is the `error` case by the
semantics of revert). -/

structure UsageAnchorS where
  provider : Nat
  windowStart : Nat
  windowEnd : Nat
  merkleRoot : Nat
  totalUsage : Nat
  disputed : Bool
  existsFlag : Bool
deriving DecidableEq

structure InvoiceS where
  enterprise : Nat
  provider : Nat
  invoiceHash : Nat
  amount : Nat
  paid : Bool
  existsFlag : Bool
deriving DecidableEq

/-- A mapping's default value: the zero anchor (`exists = false`). -/
def anchorZero : UsageAnchorS :=
  { provider := 0, windowStart := 0, windowEnd := 0, merkleRoot := 0,
    totalUsage := 0, disputed := false, existsFlag := false }

/-- A mapping's default value: the zero invoice (`exists = false`). -/
def invoiceZero : InvoiceS :=
  { enterprise := 0, provider := 0, invoiceHash := 0, amount := 0,
    paid := false, existsFlag := false }

/-- The contract storage of `EdgeCharge.sol` (the fields the treated
entry points read or write), plus the `ReentrancyGuard` status bit. -/
structure EdgeChargeState where
  usageAnchors : Nat → UsageAnchorS
  invoices : Nat → InvoiceS
  authorizedRelayers : Nat → Bool
  enterpriseEscrow : Nat → Nat
  providerBalances : Nat → Nat
  nextInvoiceId : Nat
  paused : Bool
  locked : Bool

/-- `anchorId = keccak256(abi.encodePacked(provider, windowStart,
windowEnd, merkleRoot))` (EdgeCharge.sol line 144): a 20-byte address
followed by two 32-byte words and a `bytes32`.  No block timestamp or
other wall-clock input enters the derivation. -/
def anchorIdOf (provider windowStart windowEnd merkleRoot : Nat) : Nat :=
  keccak256Nat (bytesBE 20 provider ++ bytesBE 32 windowStart ++
    bytesBE 32 windowEnd ++ bytesBE 32 merkleRoot)

/-- The storage write performed by a successful `submitUsageAnchor`:
the anchor struct is stored under its deterministic id; no other slot
changes. -/
def submitUpdate (s : EdgeChargeState)
    (provider windowStart windowEnd merkleRoot totalUsage : Nat) : EdgeChargeState :=
  { s with usageAnchors := fun i =>
      if i = anchorIdOf provider windowStart windowEnd merkleRoot then
        { provider := provider, windowStart := windowStart, windowEnd := windowEnd,
          merkleRoot := merkleRoot, totalUsage := totalUsage,
          disputed := false, existsFlag := true }
      else s.usageAnchors i }

/-- `submitUsageAnchor` (EdgeCharge.sol lines 132–158); modifiers
`onlyRelayer whenNotPaused` run first, then the explicit `require`s in
source order. -/
def submitUsageAnchor (s : EdgeChargeState)
    (sender provider windowStart windowEnd merkleRoot totalUsage : Nat) :
    Except String (Nat × EdgeChargeState) :=
  if !s.authorizedRelayers sender then .error "EdgeCharge: Not authorized relayer"
  else if s.paused then .error "Pausable: paused"
  else if provider == 0 then .error "EdgeCharge: Invalid provider"
  else if !decide (windowStart < windowEnd) then .error "EdgeCharge: Invalid time window"
  else if totalUsage == 0 then .error "EdgeCharge: Invalid usage amount"
  else
    let anchorId := anchorIdOf provider windowStart windowEnd merkleRoot
    if (s.usageAnchors anchorId).existsFlag then .error "EdgeCharge: Anchor already exists"
    else .ok (anchorId, submitUpdate s provider windowStart windowEnd merkleRoot totalUsage)

/-- The storage write performed by a successful `markInvoicePaid`: the
escrow debit, the provider credit and the `paid` flag together. -/
def settleUpdate (s : EdgeChargeState) (invoiceId : Nat) : EdgeChargeState :=
  let inv := s.invoices invoiceId
  { s with
    enterpriseEscrow := fun e =>
      if e = inv.enterprise then s.enterpriseEscrow e - inv.amount
      else s.enterpriseEscrow e,
    providerBalances := fun p =>
      if p = inv.provider then s.providerBalances p + inv.amount
      else s.providerBalances p,
    invoices := fun j => if j = invoiceId then { inv with paid := true } else s.invoices j }

/-- `markInvoicePaid` (EdgeCharge.sol lines 190–205); modifiers
`onlyRelayer whenNotPaused nonReentrant`, then the `require`s in source
order; the escrow debit, the provider credit and the `paid` flag are
written in one step. -/
def markInvoicePaid (s : EdgeChargeState) (sender invoiceId : Nat) :
    Except String EdgeChargeState :=
  if !s.authorizedRelayers sender then .error "EdgeCharge: Not authorized relayer"
  else if s.paused then .error "Pausable: paused"
  else if s.locked then .error "ReentrancyGuard: reentrant call"
  else if !(s.invoices invoiceId).existsFlag then .error "EdgeCharge: Invoice does not exist"
  else if (s.invoices invoiceId).paid then .error "EdgeCharge: Invoice already paid"
  else
    let inv := s.invoices invoiceId
    if !decide (inv.amount ≤ s.enterpriseEscrow inv.enterprise) then
      .error "EdgeCharge: insufficient escrow"
    else .ok (settleUpdate s invoiceId)

/-- `withdrawProvider` (EdgeCharge.sol lines 208–214) together with an
adversarial model of the external `safeTransfer`: during the token
transfer the recipient may re-invoke `withdrawProvider` (the attack the
zero-then-transfer ordering and the `nonReentrant` guard defend
against).  `fuel` bounds the number of nested call frames; the returned
`Nat` is the total amount the token transferred to the caller across
the whole call tree, and the `Bool` is whether the outermost call
succeeded.  The balance write to zero happens in the state passed to
the reentrant frames, i.e. strictly before the transfer, exactly as in
the source. -/
def withdrawProvider : Nat → EdgeChargeState → Nat → EdgeChargeState × Nat × Bool
  | 0, s, _ => (s, 0, false)
  | fuel + 1, s, caller =>
    if s.paused then (s, 0, false)
    else if s.locked then (s, 0, false)
    else
      let bal := s.providerBalances caller
      if bal == 0 then (s, 0, false)
      else
        let s1 := { s with locked := true,
                           providerBalances := fun a => if a = caller then 0 else s.providerBalances a }
        let r := withdrawProvider fuel s1 caller
        ({ r.1 with locked := false }, bal + r.2.1, true)

/-- `MerkleProof.verify` from OpenZeppelin, as called by the contract's
`verifyMerkleProof`.  Modelled from the spec: the on-ledger verifier
"folds the proof onto the leaf with OpenZeppelin's commutative
sorted-pair keccak256" — `hash(min(a,b) ‖ max(a,b))` — and compares the
result with the expected root (the library source itself is a
`node_modules` dependency, not part of the repository tree). -/
def commutativeKeccak256 (a b : Nat) : Nat :=
  keccak256Nat (bytesBE 32 (min a b) ++ bytesBE 32 (max a b))

/-- `verifyMerkleProof` (EdgeCharge.sol lines 242–250): look up the
anchor, then `MerkleProof.verify(proof, root, leaf)`. -/
def contractVerifyMerkleProof (s : EdgeChargeState) (anchorId leaf : Nat)
    (proof : List Nat) : Except String Bool :=
  if !(s.usageAnchors anchorId).existsFlag then .error "EdgeCharge: Anchor does not exist"
  else .ok (proof.foldl commutativeKeccak256 leaf == (s.usageAnchors anchorId).merkleRoot)

/-! ### Cross-component hash-rule identity (claim C3) -/

theorem foldl_bytes_lt : ∀ (bs : List Nat) (acc : Nat), (∀ b ∈ bs, b < 256) →
    bs.foldl (fun a b => a * 256 + b) acc < (acc + 1) * 256 ^ bs.length := by
  intro bs
  induction bs with
  | nil => intro acc _; simp
  | cons b bs ih =>
    intro acc h
    have hb : b < 256 := h b (List.mem_cons_self b bs)
    have hrest := ih (acc * 256 + b) fun x hx => h x (List.mem_cons_of_mem _ hx)
    simp only [List.foldl_cons, List.length_cons]
    calc (bs.foldl (fun a b => a * 256 + b) (acc * 256 + b))
        < (acc * 256 + b + 1) * 256 ^ bs.length := hrest
      _ ≤ ((acc + 1) * 256) * 256 ^ bs.length := Nat.mul_le_mul_right _ (by omega)
      _ = (acc + 1) * 256 ^ (bs.length + 1) := by ring

theorem laneByte_lt (lane k : Nat) : laneByte lane k < 256 :=
  Nat.lt_of_le_of_lt Nat.and_le_right (by norm_num)

/-- Every keccak-256 digest value fits in 32 bytes. -/
theorem keccak256Nat_lt (msg : List Nat) : keccak256Nat msg < 2 ^ 256 := by
  unfold keccak256Nat
  set A := (keccakBlocks (keccakPad msg)).foldl keccakAbsorbBlock (List.replicate 25 0) with hA
  set outBytes := (List.range 4).flatMap fun j =>
    (List.range 8).map fun k => laneByte (A.getD j 0) k with hOut
  have hlen : outBytes.length = 32 := by
    rw [hOut]
    simp only [List.length_flatMap, Function.comp_def, List.length_map]
    decide
  have hmem : ∀ b ∈ outBytes, b < 256 := by
    intro b hb
    rw [hOut] at hb
    simp only [List.mem_flatMap, List.mem_map, List.mem_range] at hb
    obtain ⟨j, _, k, _, rfl⟩ := hb
    exact laneByte_lt _ _
  have := foldl_bytes_lt outBytes 0 hmem
  rw [hlen] at this
  calc outBytes.foldl (fun acc b => acc * 256 + b) 0 < (0 + 1) * 256 ^ 32 := this
    _ = 2 ^ 256 := by norm_num

theorem hashPairCommutative_lt (a b : Nat) : hashPairCommutative a b < 2 ^ 256 := by
  unfold hashPairCommutative
  split <;> exact keccak256Nat_lt _

theorem commutativeKeccak256_lt (a b : Nat) : commutativeKeccak256 a b < 2 ^ 256 :=
  keccak256Nat_lt _

/-- On canonical 32-byte values, the TypeScript string-ordered pair hash
and OpenZeppelin's numerically ordered pair hash coincide. -/
theorem hashPairCommutative_eq_commutative {a b : Nat}
    (ha : a < 2 ^ 256) (hb : b < 2 ^ 256) :
    hashPairCommutative a b = commutativeKeccak256 a b := by
  unfold hashPairCommutative commutativeKeccak256
  rw [jsHexStrLt_eq_decide_lt ha hb]
  by_cases h : a < b
  · rw [if_pos (decide_eq_true h), Nat.min_eq_left h.le, Nat.max_eq_right h.le]
  · have hd : decide (a < b) = false := decide_eq_false h
    have hba : b ≤ a := Nat.le_of_not_lt h
    rw [if_neg (by simp [hd]), Nat.min_eq_right hba, Nat.max_eq_left hba]

theorem foldl_hashPair_lt (proof : List Nat) :
    ∀ leaf : Nat, leaf < 2 ^ 256 →
      proof.foldl hashPairCommutative leaf < 2 ^ 256 := by
  induction proof with
  | nil => intro leaf hleaf; exact hleaf
  | cons p ps ih =>
    intro leaf hleaf
    exact ih (hashPairCommutative leaf p) (hashPairCommutative_lt _ _)

theorem foldl_hashPair_eq_comm (proof : List Nat) :
    ∀ leaf : Nat, leaf < 2 ^ 256 → (∀ p ∈ proof, p < 2 ^ 256) →
      proof.foldl hashPairCommutative leaf = proof.foldl commutativeKeccak256 leaf := by
  induction proof with
  | nil => intro leaf _ _; rfl
  | cons p ps ih =>
    intro leaf hleaf hp
    simp only [List.foldl_cons]
    rw [hashPairCommutative_eq_commutative hleaf (hp p (List.mem_cons_self p ps))]
    exact ih (commutativeKeccak256 leaf p) (commutativeKeccak256_lt _ _)
      fun x hx => hp x (List.mem_cons_of_mem _ hx)

theorem natBeq_eq_decide (a b : Nat) : (a == b) = decide (a = b) := by
  by_cases h : a = b <;> simp [h]

/-- Claim C3: the on-ledger proof verifier (contract `verifyMerkleProof`
via OpenZeppelin's `MerkleProof.verify`, modelled from the spec) and the
off-ledger verifier (`verification.ts` `verifyMerkleProof`) return the
same boolean for every triple of canonical 32-byte leaf, proof elements
and stored root: the two components implement identical commutative
sorted-pair combine rules. -/
theorem onledger_offledger_verifier_agree (s : EdgeChargeState)
    (anchorId leaf : Nat) (proof : List Nat)
    (hex : (s.usageAnchors anchorId).existsFlag = true)
    (hleaf : leaf < 2 ^ 256)
    (hproof : ∀ p ∈ proof, p < 2 ^ 256)
    (hroot : (s.usageAnchors anchorId).merkleRoot < 2 ^ 256) :
    contractVerifyMerkleProof s anchorId leaf proof =
      Except.ok (verifyMerkleProof leaf proof ((s.usageAnchors anchorId).merkleRoot)) := by
  unfold contractVerifyMerkleProof verifyMerkleProof
  simp only [hex, Bool.not_true, Bool.false_eq_true, if_false]
  congr 1
  rw [jsHexStrEq_eq_decide_eq (foldl_hashPair_lt proof leaf hleaf) hroot,
    foldl_hashPair_eq_comm proof leaf hleaf hproof, natBeq_eq_decide]

/-- A concrete ledger state holding one anchor, used by witnesses. -/
def witnessAnchorState : EdgeChargeState :=
  { usageAnchors := fun i =>
      if i = 7 then
        { provider := 1, windowStart := 1000, windowEnd := 1060, merkleRoot := 0,
          totalUsage := 500, disputed := false, existsFlag := true }
      else anchorZero,
    invoices := fun _ => invoiceZero,
    authorizedRelayers := fun a => a == 9,
    enterpriseEscrow := fun _ => 0,
    providerBalances := fun _ => 0,
    nextInvoiceId := 1,
    paused := false,
    locked := false }

/-- Witness for C3 at a concrete input: the two verifiers agree on the
stored anchor with an empty proof. -/
theorem onledger_offledger_verifier_agree_witness :
    contractVerifyMerkleProof witnessAnchorState 7 3 [] =
      Except.ok (verifyMerkleProof 3 [] ((witnessAnchorState.usageAnchors 7).merkleRoot)) :=
  onledger_offledger_verifier_agree witnessAnchorState 7 3 []
    (by decide) (by norm_num) (by simp) (by norm_num [witnessAnchorState, anchorZero])

/-! ### Anchor submission idempotence (claim C4) -/

/-- Claim C4: with valid arguments (nonzero provider, ordered window,
positive usage) an authorized relayer's first `submitUsageAnchor` call
succeeds, stores the anchor under
`anchorId = keccak256(provider ‖ windowStart ‖ windowEnd ‖ merkleRoot)`
(a derivation with no wall-clock input), leaves every other storage
slot unchanged, and a second call with identical arguments reverts with
the duplicate error — by revert semantics the ledger state after the
pair of calls is the state after the first call alone. -/
theorem submitUsageAnchor_idempotent (s : EdgeChargeState)
    (sender provider windowStart windowEnd merkleRoot totalUsage : Nat)
    (hrel : s.authorizedRelayers sender = true)
    (hpause : s.paused = false)
    (hprov : provider ≠ 0)
    (hwin : windowStart < windowEnd)
    (husage : 0 < totalUsage)
    (hfresh : (s.usageAnchors (anchorIdOf provider windowStart windowEnd merkleRoot)).existsFlag = false) :
    ∃ s' : EdgeChargeState,
      submitUsageAnchor s sender provider windowStart windowEnd merkleRoot totalUsage =
        Except.ok (anchorIdOf provider windowStart windowEnd merkleRoot, s') ∧
      s'.usageAnchors (anchorIdOf provider windowStart windowEnd merkleRoot) =
        { provider := provider, windowStart := windowStart, windowEnd := windowEnd,
          merkleRoot := merkleRoot, totalUsage := totalUsage,
          disputed := false, existsFlag := true } ∧
      (∀ j, j ≠ anchorIdOf provider windowStart windowEnd merkleRoot →
        s'.usageAnchors j = s.usageAnchors j) ∧
      s'.invoices = s.invoices ∧
      s'.enterpriseEscrow = s.enterpriseEscrow ∧
      s'.providerBalances = s.providerBalances ∧
      s'.nextInvoiceId = s.nextInvoiceId ∧
      submitUsageAnchor s' sender provider windowStart windowEnd merkleRoot totalUsage =
        Except.error "EdgeCharge: Anchor already exists" := by
  have h1 : (provider == 0) = false := by simp [hprov]
  have h2 : decide (windowStart < windowEnd) = true := decide_eq_true hwin
  have h3 : (totalUsage == 0) = false := by simp; omega
  refine ⟨submitUpdate s provider windowStart windowEnd merkleRoot totalUsage,
    ?_, ?_, ?_, rfl, rfl, rfl, rfl, ?_⟩
  · unfold submitUsageAnchor
    simp only [hrel, hpause, h1, h2, h3, hfresh, Bool.not_true, Bool.not_false,
      Bool.false_eq_true, if_false, if_true]
  · unfold submitUpdate
    simp
  · intro j hj
    unfold submitUpdate
    simp only [if_neg hj]
  · unfold submitUsageAnchor
    simp only [submitUpdate, hrel, hpause, h1, h2, h3, Bool.not_true, Bool.not_false,
      Bool.false_eq_true, if_false, if_true]

/-- A concrete pre-state with no anchors, used by the C4 witness. -/
def witnessEmptyState : EdgeChargeState :=
  { usageAnchors := fun _ => anchorZero,
    invoices := fun _ => invoiceZero,
    authorizedRelayers := fun a => a == 9,
    enterpriseEscrow := fun _ => 0,
    providerBalances := fun _ => 0,
    nextInvoiceId := 1,
    paused := false,
    locked := false }

/-- Witness for C4 at a concrete input: relayer 9 anchors
(provider 1, 1000–1060, root 0, usage 500) once; the duplicate call
fails. -/
theorem submitUsageAnchor_idempotent_witness :
    ∃ s' : EdgeChargeState,
      submitUsageAnchor witnessEmptyState 9 1 1000 1060 0 500 =
        Except.ok (anchorIdOf 1 1000 1060 0, s') ∧
      s'.usageAnchors (anchorIdOf 1 1000 1060 0) =
        { provider := 1, windowStart := 1000, windowEnd := 1060, merkleRoot := 0,
          totalUsage := 500, disputed := false, existsFlag := true } ∧
      (∀ j, j ≠ anchorIdOf 1 1000 1060 0 →
        s'.usageAnchors j = witnessEmptyState.usageAnchors j) ∧
      s'.invoices = witnessEmptyState.invoices ∧
      s'.enterpriseEscrow = witnessEmptyState.enterpriseEscrow ∧
      s'.providerBalances = witnessEmptyState.providerBalances ∧
      s'.nextInvoiceId = witnessEmptyState.nextInvoiceId ∧
      submitUsageAnchor s' 9 1 1000 1060 0 500 =
        Except.error "EdgeCharge: Anchor already exists" := by
  exact submitUsageAnchor_idempotent witnessEmptyState 9 1 1000 1060 0 500
    rfl rfl (by decide) (by decide) (by decide) rfl

/-! ### Settlement atomicity (claim C5) -/

/-- Claim C5: for an existing unpaid invoice, `markInvoicePaid` either
(sufficient escrow) debits the enterprise escrow by exactly the
invoice amount, credits the provider balance by exactly that amount and
flips `paid`, all in one successful step touching nothing else; or
(insufficient escrow) reverts with the insufficient-escrow error, and
by revert semantics the invoice stays unpaid and the call is
retryable.  No partially settled state is observable. -/
theorem markInvoicePaid_settlement_atomic (s : EdgeChargeState) (sender invoiceId : Nat)
    (hrel : s.authorizedRelayers sender = true)
    (hpause : s.paused = false)
    (hlock : s.locked = false)
    (hex : (s.invoices invoiceId).existsFlag = true)
    (hunpaid : (s.invoices invoiceId).paid = false) :
    ((s.invoices invoiceId).amount ≤ s.enterpriseEscrow (s.invoices invoiceId).enterprise →
      markInvoicePaid s sender invoiceId = Except.ok (settleUpdate s invoiceId) ∧
      (settleUpdate s invoiceId).enterpriseEscrow (s.invoices invoiceId).enterprise =
        s.enterpriseEscrow (s.invoices invoiceId).enterprise - (s.invoices invoiceId).amount ∧
      (settleUpdate s invoiceId).providerBalances (s.invoices invoiceId).provider =
        s.providerBalances (s.invoices invoiceId).provider + (s.invoices invoiceId).amount ∧
      ((settleUpdate s invoiceId).invoices invoiceId).paid = true ∧
      (∀ e, e ≠ (s.invoices invoiceId).enterprise →
        (settleUpdate s invoiceId).enterpriseEscrow e = s.enterpriseEscrow e) ∧
      (∀ p, p ≠ (s.invoices invoiceId).provider →
        (settleUpdate s invoiceId).providerBalances p = s.providerBalances p) ∧
      (∀ j, j ≠ invoiceId → (settleUpdate s invoiceId).invoices j = s.invoices j) ∧
      (settleUpdate s invoiceId).usageAnchors = s.usageAnchors) ∧
    (s.enterpriseEscrow (s.invoices invoiceId).enterprise < (s.invoices invoiceId).amount →
      markInvoicePaid s sender invoiceId = Except.error "EdgeCharge: insufficient escrow") := by
  constructor
  · intro hamt
    have hd : decide ((s.invoices invoiceId).amount ≤
        s.enterpriseEscrow (s.invoices invoiceId).enterprise) = true := decide_eq_true hamt
    refine ⟨?_, ?_, ?_, ?_, ?_, ?_, ?_, rfl⟩
    · unfold markInvoicePaid
      simp only [hrel, hpause, hlock, hex, hunpaid, hd, Bool.not_true, Bool.not_false,
        Bool.false_eq_true, if_false, if_true]
    · unfold settleUpdate
      simp
    · unfold settleUpdate
      simp
    · unfold settleUpdate
      simp
    · intro e he
      unfold settleUpdate
      simp only [if_neg he]
    · intro p hp
      unfold settleUpdate
      simp only [if_neg hp]
    · intro j hj
      unfold settleUpdate
      simp only [if_neg hj]
  · intro hlt
    have hd : decide ((s.invoices invoiceId).amount ≤
        s.enterpriseEscrow (s.invoices invoiceId).enterprise) = false :=
      decide_eq_false (Nat.not_le_of_lt hlt)
    unfold markInvoicePaid
    simp only [hrel, hpause, hlock, hex, hunpaid, hd, Bool.not_true, Bool.not_false,
      Bool.false_eq_true, if_false, if_true]

/-- A concrete ledger state holding one unpaid invoice and funded
escrow, used by the C5 witness. -/
def witnessInvoiceState : EdgeChargeState :=
  { usageAnchors := fun _ => anchorZero,
    invoices := fun i =>
      if i = 1 then
        { enterprise := 3, provider := 4, invoiceHash := 5, amount := 600,
          paid := false, existsFlag := true }
      else invoiceZero,
    authorizedRelayers := fun a => a == 9,
    enterpriseEscrow := fun e => if e = 3 then 1000 else 0,
    providerBalances := fun _ => 0,
    nextInvoiceId := 2,
    paused := false,
    locked := false }

/-- Witness for C5 at a concrete input: settling a 600 invoice against
a 1000 escrow succeeds atomically. -/
theorem markInvoicePaid_settlement_atomic_witness :
    markInvoicePaid witnessInvoiceState 9 1 = Except.ok (settleUpdate witnessInvoiceState 1) ∧
      (settleUpdate witnessInvoiceState 1).enterpriseEscrow
          (witnessInvoiceState.invoices 1).enterprise =
        witnessInvoiceState.enterpriseEscrow (witnessInvoiceState.invoices 1).enterprise -
          (witnessInvoiceState.invoices 1).amount ∧
      (settleUpdate witnessInvoiceState 1).providerBalances
          (witnessInvoiceState.invoices 1).provider =
        witnessInvoiceState.providerBalances (witnessInvoiceState.invoices 1).provider +
          (witnessInvoiceState.invoices 1).amount ∧
      ((settleUpdate witnessInvoiceState 1).invoices 1).paid = true ∧
      (∀ e, e ≠ (witnessInvoiceState.invoices 1).enterprise →
        (settleUpdate witnessInvoiceState 1).enterpriseEscrow e =
          witnessInvoiceState.enterpriseEscrow e) ∧
      (∀ p, p ≠ (witnessInvoiceState.invoices 1).provider →
        (settleUpdate witnessInvoiceState 1).providerBalances p =
          witnessInvoiceState.providerBalances p) ∧
      (∀ j, j ≠ 1 → (settleUpdate witnessInvoiceState 1).invoices j =
        witnessInvoiceState.invoices j) ∧
      (settleUpdate witnessInvoiceState 1).usageAnchors = witnessInvoiceState.usageAnchors :=
  (markInvoicePaid_settlement_atomic witnessInvoiceState 9 1
    rfl rfl rfl (by decide) (by decide)).1 (by decide)

/-! ### Withdrawal: zero-then-transfer, no double payout (claim C6) -/

theorem withdrawProvider_locked (fuel : Nat) (s : EdgeChargeState) (caller : Nat)
    (h : s.locked = true) : withdrawProvider fuel s caller = (s, 0, false) := by
  cases fuel with
  | zero => rfl
  | succ n =>
    unfold withdrawProvider
    by_cases hp : s.paused <;> simp [hp, h]

/-- Claim C6: `withdrawProvider` requires a positive balance, zeroes the
caller's balance strictly before the external transfer, and so — for
every reentry depth `fuel` the transfer target may attempt — the total
amount transferred never exceeds the caller's credited balance; a
successful call transfers exactly the prior balance and leaves the
balance at zero, and a zero balance makes the call fail. -/
theorem withdrawProvider_no_double_payout (fuel : Nat) (s : EdgeChargeState) (caller : Nat) :
    (withdrawProvider fuel s caller).2.1 ≤ s.providerBalances caller ∧
    ((withdrawProvider fuel s caller).2.2 = true →
      (withdrawProvider fuel s caller).1.providerBalances caller = 0 ∧
      (withdrawProvider fuel s caller).2.1 = s.providerBalances caller) ∧
    (s.providerBalances caller = 0 → (withdrawProvider fuel s caller).2.2 = false) := by
  cases fuel with
  | zero =>
    refine ⟨Nat.zero_le _, ?_, fun _ => rfl⟩
    intro h
    simp [withdrawProvider] at h
  | succ n =>
    by_cases hp : s.paused
    · unfold withdrawProvider
      simp [hp]
    · by_cases hl : s.locked
      · unfold withdrawProvider
        simp [hp, hl]
      · by_cases hb : s.providerBalances caller = 0
        · unfold withdrawProvider
          simp [hp, hl, hb]
        · have hbeq : (s.providerBalances caller == 0) = false := by simp [hb]
          unfold withdrawProvider
          simp only [hp, hl, hbeq, Bool.false_eq_true, if_false, withdrawProvider_locked]
          refine ⟨?_, fun _ => ⟨?_, ?_⟩, fun h0 => absurd h0 hb⟩
          · simp
          · simp
          · simp

/-! ### Relayer batcher: pending store and drain (claims C7, C10)

Embedding of `services/state.ts` (`pendingLeaves`, `addLeaf`,
`drainLeavesForWindow`) and of the anchor-argument computation in
`services/batcher.ts`.  A `Leaf` is the relayer's validated usage
record (`domain/leaf.ts`); its string fields are opaque identifiers,
modelled as `Nat`s, since the drain and the batcher only compare,
sum or copy them. -/

structure Leaf where
  provider : Nat
  nodeId : Nat
  windowStart : Nat
  windowEnd : Nat
  unitsConsumed : Nat
  rateId : Nat
  nonce : Nat
  providerSig : Nat
deriving DecidableEq

/-- The drain filter of `drainLeavesForWindow` (state.ts line 22):
`l.windowEnd <= now && l.windowEnd > cutoff` with
`cutoff = now - windowSeconds` computed in JavaScript arithmetic
(which may go negative, hence the `Int` subtraction). -/
def drainPred (now windowSeconds : Nat) (l : Leaf) : Bool :=
  decide (l.windowEnd ≤ now) && decide ((now : Int) - (windowSeconds : Int) < (l.windowEnd : Int))

/-- `drainLeavesForWindow` (state.ts lines 20–29): filter the batch,
then remove each batched element from the pending array by its first
index (`indexOf` + `splice`, i.e. `List.erase`).  Returns
(batch, remaining pending). -/
def drainLeavesForWindow (now windowSeconds : Nat) (pending : List Leaf) :
    List Leaf × List Leaf :=
  let batch := pending.filter (drainPred now windowSeconds)
  (batch, List.foldl (fun acc b => acc.erase b) pending batch)

theorem foldl_erase_cons_of_ne (x : Leaf) :
    ∀ (batch l : List Leaf), (∀ b ∈ batch, b ≠ x) →
      List.foldl (fun acc b => acc.erase b) (x :: l) batch =
        x :: List.foldl (fun acc b => acc.erase b) l batch := by
  intro batch
  induction batch with
  | nil => intro l _; rfl
  | cons b bs ih =>
    intro l hx
    simp only [List.foldl_cons]
    have hne : ¬(x == b) = true := by
      simp only [beq_iff_eq]
      exact fun hxb => (hx b (List.mem_cons_self b bs)) (hxb ▸ rfl)
    rw [List.erase_cons_tail hne]
    exact ih (l.erase b) fun c hc => hx c (List.mem_cons_of_mem _ hc)

/-- The erase loop of `drainLeavesForWindow` removes exactly the
filtered occurrences: the remaining pending list is the complementary
filter. -/
theorem drain_rest_eq_filter (p : Leaf → Bool) :
    ∀ pending : List Leaf,
      List.foldl (fun acc b => acc.erase b) pending (pending.filter p) =
        pending.filter (fun a => !p a) := by
  intro pending
  induction pending with
  | nil => rfl
  | cons a l ih =>
    by_cases pa : p a
    · rw [List.filter_cons_of_pos pa]
      simp only [List.foldl_cons, List.erase_cons_head]
      rw [ih, List.filter_cons_of_neg (by simp [pa])]
    · rw [List.filter_cons_of_neg pa]
      rw [foldl_erase_cons_of_ne a _ l fun b hb => by
        intro hba
        exact pa (hba ▸ (List.of_mem_filter hb))]
      rw [ih, List.filter_cons_of_pos (by simp [pa])]

theorem drainLeavesForWindow_rest (now ws : Nat) (pending : List Leaf) :
    (drainLeavesForWindow now ws pending).2 =
      pending.filter fun l => !drainPred now ws l :=
  drain_rest_eq_filter _ pending

/-- The pending list before drain cycle `k`, for cycle times `nows`. -/
def drainTracePending (ws : Nat) (nows : Nat → Nat) (pending0 : List Leaf) : Nat → List Leaf
  | 0 => pending0
  | k + 1 => (drainLeavesForWindow (nows k) ws (drainTracePending ws nows pending0 k)).2

/-- The batch drained at cycle `k`. -/
def drainTraceBatch (ws : Nat) (nows : Nat → Nat) (pending0 : List Leaf) (k : Nat) : List Leaf :=
  (drainLeavesForWindow (nows k) ws (drainTracePending ws nows pending0 k)).1

/-- Claim C7 as stated: over any strictly increasing cycle clock, every
initially pending record whose window eventually closes is drained in
exactly one cycle's batch. -/
def batcherEventualInclusionClaim : Prop :=
  ∀ ws : Nat, 0 < ws →
  ∀ nows : Nat → Nat, StrictMono nows →
  ∀ (pending0 : List Leaf) (l : Leaf), l ∈ pending0 →
  (∃ k, l.windowEnd ≤ nows k) →
  ∃! k, l ∈ drainTraceBatch ws nows pending0 k

/-- A pending record whose window closed long before the first drain
cycle runs. -/
def staleLeaf : Leaf :=
  { provider := 1, nodeId := 1, windowStart := 0, windowEnd := 10,
    unitsConsumed := 500, rateId := 1, nonce := 1, providerSig := 1 }

theorem staleLeaf_never_drained (j : Nat) :
    drainPred (100 + j) 60 staleLeaf = false := by
  unfold drainPred staleLeaf
  have h2 : decide (((100 + j : Nat) : Int) - (60 : Nat) < ((10 : Nat) : Int)) = false := by
    apply decide_eq_false
    push_cast
    omega
  simp only [h2, Bool.and_false]

theorem staleLeaf_trace (j : Nat) :
    drainTracePending 60 (fun k => 100 + k) [staleLeaf] j = [staleLeaf] ∧
      drainTraceBatch 60 (fun k => 100 + k) [staleLeaf] j = [] := by
  induction j with
  | zero =>
    constructor
    · rfl
    · unfold drainTraceBatch drainTracePending drainLeavesForWindow
      simp [staleLeaf_never_drained 0]
  | succ j ih =>
    have hpend : drainTracePending 60 (fun k => 100 + k) [staleLeaf] (j + 1) = [staleLeaf] := by
      show (drainLeavesForWindow (100 + j) 60
        (drainTracePending 60 (fun k => 100 + k) [staleLeaf] j)).2 = [staleLeaf]
      rw [ih.1, drainLeavesForWindow_rest]
      simp [staleLeaf_never_drained j]
    refine ⟨hpend, ?_⟩
    unfold drainTraceBatch
    rw [hpend]
    unfold drainLeavesForWindow
    simp [staleLeaf_never_drained (j + 1)]

/-- Counterexample to claim C7: the drain filter also requires
`windowEnd > now - windowSeconds`, so a record whose window closed more
than `windowSeconds` before every cycle time is never drained — it is
silently left pending forever even though its window has closed. -/
theorem batcher_eventual_inclusion_refuted : ¬ batcherEventualInclusionClaim := by
  intro h
  obtain ⟨k, hk, -⟩ :=
    h 60 (by omega) (fun k => 100 + k) (fun a b hab => by show 100 + a < 100 + b; omega)
      [staleLeaf] staleLeaf (List.mem_singleton.mpr rfl) ⟨0, by norm_num [staleLeaf]⟩
  rw [(staleLeaf_trace k).2] at hk
  exact absurd hk (List.not_mem_nil staleLeaf)

theorem count_filter_pos {p : Leaf → Bool} {l : Leaf} (hl : p l = true) (L : List Leaf) :
    (L.filter p).count l = L.count l :=
  List.count_filter hl

theorem count_filter_neg {p : Leaf → Bool} {l : Leaf} (hl : p l = false) (L : List Leaf) :
    (L.filter p).count l = 0 := by
  rw [List.count_eq_zero]
  intro hmem
  exact absurd (List.of_mem_filter hmem) (by simp [hl])

/-- Claim C7, amended to what the code does: (i) a record is in cycle
`k`'s batch exactly when it is pending at `k` and its `windowEnd` lies
in the half-open interval `(nows k − windowSeconds, nows k]` — records
whose window closed more than `windowSeconds` before every remaining
cycle time are never drained; and (ii) occurrences are conserved: for
every prefix of cycles, each record's initial multiplicity equals its
total multiplicity across the drained batches plus its multiplicity in
the still-pending list, so no record is ever double-counted. -/
theorem drain_membership_and_conservation (ws : Nat) (nows : Nat → Nat)
    (pending0 : List Leaf) :
    (∀ k l, l ∈ drainTraceBatch ws nows pending0 k ↔
      (l ∈ drainTracePending ws nows pending0 k ∧
        l.windowEnd ≤ nows k ∧ (nows k : Int) - (ws : Int) < (l.windowEnd : Int))) ∧
    (∀ k l, pending0.count l =
      ((List.range k).map fun j => (drainTraceBatch ws nows pending0 j).count l).sum +
        (drainTracePending ws nows pending0 k).count l) := by
  constructor
  · intro k l
    unfold drainTraceBatch drainLeavesForWindow
    simp only [List.mem_filter, drainPred, Bool.and_eq_true, decide_eq_true_eq]
  · intro k l
    induction k with
    | zero => simp [drainTracePending]
    | succ k ih =>
      rw [List.range_succ, List.map_append, List.sum_append]
      simp only [List.map_cons, List.map_nil, List.sum_cons, List.sum_nil]
      have hpend : drainTracePending ws nows pending0 (k + 1) =
          (drainTracePending ws nows pending0 k).filter
            fun a => !drainPred (nows k) ws a := by
        show (drainLeavesForWindow (nows k) ws (drainTracePending ws nows pending0 k)).2 = _
        exact drainLeavesForWindow_rest _ _ _
      have hbatch : drainTraceBatch ws nows pending0 k =
          (drainTracePending ws nows pending0 k).filter (drainPred (nows k) ws) := rfl
      rw [hpend, hbatch, ih]
      by_cases hp : drainPred (nows k) ws l
      · rw [count_filter_pos hp, count_filter_neg (by simp [hp])]
        simp
      · rw [count_filter_neg (by simp at hp; exact hp),
          count_filter_pos (by simp [hp])]
        simp

/-! ### Batcher anchor arguments (claim C10)

`startBatcher` (batcher.ts lines 10–29) computes, for a non-empty
drained batch: `provider = leaves[0].provider`,
`windowStart = Math.min(...leaves.map(l => l.windowStart))`,
`windowEnd = Math.max(...leaves.map(l => l.windowEnd))`,
`totalUsage = leaves.reduce((a, l) => a + BigInt(l.unitsConsumed), 0n)`. -/

/-- The anchor-argument computation of `startBatcher` on the drained
batch; `none` models the early `return` on an empty batch. -/
def batchAnchorArgs (leaves : List Leaf) : Option (Nat × Nat × Nat × Nat) :=
  match leaves with
  | [] => none
  | l0 :: rest =>
    some (l0.provider,
      (rest.map (·.windowStart)).foldl min l0.windowStart,
      (rest.map (·.windowEnd)).foldl max l0.windowEnd,
      ((l0 :: rest).map (·.unitsConsumed)).sum)

theorem foldl_min_le_all : ∀ (xs : List Nat) (a : Nat),
    xs.foldl min a ≤ a ∧ ∀ x ∈ xs, xs.foldl min a ≤ x := by
  intro xs
  induction xs with
  | nil => intro a; exact ⟨Nat.le_refl a, by simp⟩
  | cons x xs ih =>
    intro a
    simp only [List.foldl_cons]
    obtain ⟨h1, h2⟩ := ih (min a x)
    refine ⟨Nat.le_trans h1 (Nat.min_le_left a x), ?_⟩
    intro y hy
    rcases List.mem_cons.mp hy with rfl | hy'
    · exact Nat.le_trans h1 (Nat.min_le_right a y)
    · exact h2 y hy'

theorem foldl_min_mem : ∀ (xs : List Nat) (a : Nat),
    xs.foldl min a = a ∨ xs.foldl min a ∈ xs := by
  intro xs
  induction xs with
  | nil => intro a; exact Or.inl rfl
  | cons x xs ih =>
    intro a
    simp only [List.foldl_cons]
    rcases ih (min a x) with h | h
    · rcases Nat.le_total a x with hax | hxa
      · exact Or.inl (by rw [h, Nat.min_eq_left hax])
      · exact Or.inr (by rw [h, Nat.min_eq_right hxa]; exact List.mem_cons_self x xs)
    · exact Or.inr (List.mem_cons_of_mem x h)

theorem le_foldl_max_all : ∀ (xs : List Nat) (a : Nat),
    a ≤ xs.foldl max a ∧ ∀ x ∈ xs, x ≤ xs.foldl max a := by
  intro xs
  induction xs with
  | nil => intro a; exact ⟨Nat.le_refl a, by simp⟩
  | cons x xs ih =>
    intro a
    simp only [List.foldl_cons]
    obtain ⟨h1, h2⟩ := ih (max a x)
    refine ⟨Nat.le_trans (Nat.le_max_left a x) h1, ?_⟩
    intro y hy
    rcases List.mem_cons.mp hy with rfl | hy'
    · exact Nat.le_trans (Nat.le_max_right a y) h1
    · exact h2 y hy'

theorem foldl_max_mem : ∀ (xs : List Nat) (a : Nat),
    xs.foldl max a = a ∨ xs.foldl max a ∈ xs := by
  intro xs
  induction xs with
  | nil => intro a; exact Or.inl rfl
  | cons x xs ih =>
    intro a
    simp only [List.foldl_cons]
    rcases ih (max a x) with h | h
    · rcases Nat.le_total a x with hax | hxa
      · exact Or.inr (by rw [h, Nat.max_eq_right hax]; exact List.mem_cons_self x xs)
      · exact Or.inl (by rw [h, Nat.max_eq_left hxa])
    · exact Or.inr (List.mem_cons_of_mem x h)

/-- Claim C10: for every non-empty drained batch, the submitted anchor
takes its provider from the first record alone (even when later records
name a different provider — their usage is attributed to the first
record's provider), windowStart is the minimum windowStart of the
batch, windowEnd the maximum windowEnd, and totalUsage the sum of
unitsConsumed over the whole batch. -/
theorem batcher_anchor_args_spec (l0 : Leaf) (rest : List Leaf) :
    ∃ p ws we tu, batchAnchorArgs (l0 :: rest) = some (p, ws, we, tu) ∧
      p = l0.provider ∧
      (∀ l ∈ l0 :: rest, ws ≤ l.windowStart) ∧
      (ws = l0.windowStart ∨ ws ∈ (l0 :: rest).map (·.windowStart)) ∧
      (∀ l ∈ l0 :: rest, l.windowEnd ≤ we) ∧
      (we = l0.windowEnd ∨ we ∈ (l0 :: rest).map (·.windowEnd)) ∧
      tu = ((l0 :: rest).map (·.unitsConsumed)).sum := by
  refine ⟨l0.provider, _, _, _, rfl, rfl, ?_, ?_, ?_, ?_, rfl⟩
  · intro l hl
    obtain ⟨h1, h2⟩ := foldl_min_le_all (rest.map (·.windowStart)) l0.windowStart
    rcases List.mem_cons.mp hl with rfl | hl'
    · exact h1
    · exact h2 _ (List.mem_map_of_mem _ hl')
  · rcases foldl_min_mem (rest.map (·.windowStart)) l0.windowStart with h | h
    · exact Or.inl h
    · exact Or.inr (by simp only [List.map_cons]; exact List.mem_cons_of_mem _ h)
  · intro l hl
    obtain ⟨h1, h2⟩ := le_foldl_max_all (rest.map (·.windowEnd)) l0.windowEnd
    rcases List.mem_cons.mp hl with rfl | hl'
    · exact h1
    · exact h2 _ (List.mem_map_of_mem _ hl')
  · rcases foldl_max_mem (rest.map (·.windowEnd)) l0.windowEnd with h | h
    · exact Or.inl h
    · exact Or.inr (by simp only [List.map_cons]; exact List.mem_cons_of_mem _ h)

/-! ### Canonical record codec (claim C9)

Embedding of `createCanonicalJson` (canonicalJson.ts lines 8–20): it
builds an object literal with the seven semantic fields in fixed order
(the signature is excluded) and returns `JSON.stringify` of it.  At the
JavaScript runtime a field may be absent (`undefined`), in which case
`JSON.stringify` silently omits the property; the function performs no
validation and has no failure path.  Absent fields are modelled with
`Option`; numbers are modelled as integers in the exactly-representable
range. -/

structure UsageRecordJS where
  provider : Option String
  nodeId : Option String
  windowStart : Option Nat
  windowEnd : Option Nat
  unitsConsumed : Option Nat
  rateId : Option String
  nonce : Option String
  providerSig : Option String

def jsonHexChar (d : Nat) : Char := Char.ofNat (hexDigitCode (d % 16))

/-- `JSON.stringify`'s escaping of one string character. -/
def jsonEscapeChar (c : Char) : List Char :=
  if c = '"' then ['\\', '"']
  else if c = '\\' then ['\\', '\\']
  else if c.toNat == 8 then ['\\', 'b']
  else if c.toNat == 9 then ['\\', 't']
  else if c.toNat == 10 then ['\\', 'n']
  else if c.toNat == 12 then ['\\', 'f']
  else if c.toNat == 13 then ['\\', 'r']
  else if c.toNat < 32 then ['\\', 'u', '0', '0', jsonHexChar (c.toNat / 16), jsonHexChar c.toNat]
  else [c]

/-- `JSON.stringify` of a string value. -/
def jsonString (s : String) : String :=
  ⟨'"' :: (s.data.flatMap jsonEscapeChar ++ ['"'])⟩

/-- `JSON.stringify` of an integer number in the safe range. -/
def jsonNumber (n : Nat) : String := toString n

/-- One object member; an `undefined` value makes `JSON.stringify`
omit the property entirely. -/
def jsonMember (key : String) (v : Option String) : List String :=
  match v with
  | none => []
  | some s => [jsonString key ++ ":" ++ s]

/-- `createCanonicalJson` (canonicalJson.ts lines 8–20). -/
def createCanonicalJson (r : UsageRecordJS) : String :=
  let members :=
    jsonMember "provider" (r.provider.map jsonString) ++
    jsonMember "nodeId" (r.nodeId.map jsonString) ++
    jsonMember "windowStart" (r.windowStart.map jsonNumber) ++
    jsonMember "windowEnd" (r.windowEnd.map jsonNumber) ++
    jsonMember "unitsConsumed" (r.unitsConsumed.map jsonNumber) ++
    jsonMember "rateId" (r.rateId.map jsonString) ++
    jsonMember "nonce" (r.nonce.map jsonString)
  "\x7b" ++ String.intercalate "," members ++ "\x7d"

/-- Counterexample to claim C9: a record missing the required `nonce`
field does not fail with an `EncodingError` — `createCanonicalJson` has
no failure path at all; it silently omits the missing property and
returns this well-formed JSON string. -/
theorem createCanonicalJson_missing_field_succeeds :
    createCanonicalJson
      { provider := some "0x1111111111111111111111111111111111111111",
        nodeId := some "node-1", windowStart := some 1000, windowEnd := some 1060,
        unitsConsumed := some 500, rateId := some "r1", nonce := none,
        providerSig := some "0xdead" } =
    "\x7b\"provider\":\"0x1111111111111111111111111111111111111111\",\"nodeId\":\"node-1\",\"windowStart\":1000,\"windowEnd\":1060,\"unitsConsumed\":500,\"rateId\":\"r1\"\x7d" := by
  rfl

/-- Claim C9, amended to what the code does: `createCanonicalJson` is
total — it never raises an `EncodingError`, neither for missing fields
(which are silently omitted) nor for out-of-range numerics (which are
not checked) — and its output is determined by the seven semantic
fields alone, in fixed order, independent of the signature field. -/
theorem createCanonicalJson_total_deterministic (r r' : UsageRecordJS)
    (h1 : r.provider = r'.provider) (h2 : r.nodeId = r'.nodeId)
    (h3 : r.windowStart = r'.windowStart) (h4 : r.windowEnd = r'.windowEnd)
    (h5 : r.unitsConsumed = r'.unitsConsumed) (h6 : r.rateId = r'.rateId)
    (h7 : r.nonce = r'.nonce) :
    createCanonicalJson r = createCanonicalJson r' := by
  unfold createCanonicalJson
  rw [h1, h2, h3, h4, h5, h6, h7]

/-- Witness for the amended C9 at a concrete input: two records equal on
the seven semantic fields but with different signatures encode to the
same canonical bytes. -/
theorem createCanonicalJson_total_deterministic_witness :
    createCanonicalJson
      { provider := some "0xabc", nodeId := some "n", windowStart := some 1,
        windowEnd := some 2, unitsConsumed := some 3, rateId := some "r",
        nonce := some "x", providerSig := some "0x01" } =
    createCanonicalJson
      { provider := some "0xabc", nodeId := some "n", windowStart := some 1,
        windowEnd := some 2, unitsConsumed := some 3, rateId := some "r",
        nonce := some "x", providerSig := some "0x02" } :=
  createCanonicalJson_total_deterministic _ _ rfl rfl rfl rfl rfl rfl rfl
